import Mathlib

/-!
Verification of the metadata reconciliation engine of `clean_bib.py`.

The program normalizes bibliographic entries: it fetches candidate metadata
(by DOI, or by a title/author search), gates it by a title-similarity check,
and merges fields through a similarity-gated smart update.

Embedding notes:
* A bibliographic entry (a `bibtexparser` dict) is modelled as `Entry`:
  its kind (`ENTRYTYPE`) and key (`ID`) plus an association list of the
  remaining fields.  `entry.get(k, "")` is `getF`, `entry.get(k)` is
  `lookupField`.
* A CSL-JSON metadata document is modelled as `Metadata`, covering the
  shapes the program distinguishes (string-or-list titles, structured
  author lists, optional fields).  `issued.date-parts[0]` is modelled as a
  year with an optional month, matching the data model the program reads.
* String similarity is `difflib.SequenceMatcher(None, a, b).ratio()` from
  the Python standard library (an external dependency of the repository).
  It is modelled by `simRatio` following its documented algorithm: the
  total size of recursively found longest matching blocks, `M`, gives the
  ratio `2 * M / (len a + len b)` (and `1` when both strings are empty).
  The dynamic programming loop, the non-junk extension loops and the
  recursive block decomposition are translated operationally; the junk
  machinery is inert here because the program passes `isjunk = None`
  (the `autojunk` heuristic, which only affects second strings of length
  at least 200, is not modelled).  Loops are written with explicit fuel
  that is large enough for every reachable call, so that everything
  evaluates by `decide`.  Ratios and thresholds are exact rationals;
  the Python floats `0.7` etc. are modelled as the rationals they denote.
* Lowercasing is per-character `Char.toLower`, modelling `str.lower`.
-/

/-- Per-character lowercasing, modelling Python's `str.lower()`. -/
def lowerStr (s : String) : String := ⟨s.data.map Char.toLower⟩

/-- Default character used for (unreachable) out-of-range list reads. -/
def c0 : Char := 'a'

/-- `b2j b c`: the increasing list of positions of `c` in `b`
(difflib's `b2j` table, with `isjunk = None`). -/
def b2j (b : List Char) (c : Char) : List Nat :=
  (List.range b.length).filter (fun j => b.getD j c0 == c)

/-- Lookup in the `j2len` row of difflib's dynamic programming loop:
value stored at key `j`, or `0`. -/
def j2lenGet (l : List (Nat × Nat)) (j : Nat) : Nat :=
  match l.find? (fun p => p.1 == j) with
  | some p => p.2
  | none => 0

/-- State of difflib's `find_longest_match` search. -/
structure FLMState where
  besti : Nat
  bestj : Nat
  bestsize : Nat
deriving DecidableEq

/-- One row (one value of `i`) of difflib's `find_longest_match` dynamic
programming loop: fold over the positions `j` where `b[j] = a[i]`,
building the new `j2len` row and updating the best block. -/
def flmRow (j2len : List (Nat × Nat)) (js : List Nat) (i : Nat)
    (st : FLMState) : List (Nat × Nat) × FLMState :=
  js.foldl (fun acc j =>
    let k := (if j = 0 then 0 else j2lenGet j2len (j - 1)) + 1
    let st' := if acc.2.bestsize < k then FLMState.mk (i + 1 - k) (j + 1 - k) k else acc.2
    ((j, k) :: acc.1, st')) ([], st)

/-- The dynamic programming part of difflib's `find_longest_match` over
`a[alo:ahi]` and `b[blo:bhi]`. -/
def flmDP (a b : List Char) (alo ahi blo bhi : Nat) : FLMState :=
  ((List.range' alo (ahi - alo)).foldl (fun acc i =>
      let js := (b2j b (a.getD i c0)).filter (fun j => decide (blo ≤ j ∧ j < bhi))
      flmRow acc.1 js i acc.2)
    ([], FLMState.mk alo blo 0)).2

/-- difflib's first extension loop: grow the best block to the left while
the preceding characters agree (the junk test is vacuous for
`isjunk = None`).  The fuel is instantiated with `besti`, an upper bound
on the number of iterations, so the loop semantics are exact. -/
def extendLeftAux (a b : List Char) (alo blo : Nat) :
    Nat → Nat → Nat → Nat → Nat × Nat × Nat
  | 0, besti, bestj, bestsize => (besti, bestj, bestsize)
  | fuel + 1, besti, bestj, bestsize =>
    if alo < besti ∧ blo < bestj ∧
        a.getD (besti - 1) c0 = b.getD (bestj - 1) c0 then
      extendLeftAux a b alo blo fuel (besti - 1) (bestj - 1) (bestsize + 1)
    else (besti, bestj, bestsize)

/-- difflib's second extension loop: grow the best block to the right while
the following characters agree.  Fuel `bhi` bounds the iterations. -/
def extendRightAux (a b : List Char) (ahi bhi besti bestj : Nat) :
    Nat → Nat → Nat
  | 0, bestsize => bestsize
  | fuel + 1, bestsize =>
    if besti + bestsize < ahi ∧ bestj + bestsize < bhi ∧
        a.getD (besti + bestsize) c0 = b.getD (bestj + bestsize) c0 then
      extendRightAux a b ahi bhi besti bestj fuel (bestsize + 1)
    else bestsize

/-- difflib's `find_longest_match` on `a[alo:ahi]` and `b[blo:bhi]`:
dynamic programming search followed by the two extension loops. -/
def findLongestMatch (a b : List Char) (alo ahi blo bhi : Nat) :
    Nat × Nat × Nat :=
  let st := flmDP a b alo ahi blo bhi
  let l := extendLeftAux a b alo blo st.besti st.besti st.bestj st.bestsize
  let size := extendRightAux a b ahi bhi l.1 l.2.1 bhi l.2.2
  (l.1, l.2.1, size)

/-- Total size of difflib's matching blocks of `a[alo:ahi]` vs `b[blo:bhi]`:
the recursive decomposition of `get_matching_blocks`, summed.  The fuel
dominates the recursion depth (each recursive call shrinks the `a`
interval, so `ahi - alo + 1` at the top level is enough). -/
def matchTotal (a b : List Char) : Nat → Nat → Nat → Nat → Nat → Nat
  | 0, _, _, _, _ => 0
  | fuel + 1, alo, ahi, blo, bhi =>
    match findLongestMatch a b alo ahi blo bhi with
    | (i, j, k) =>
      if k = 0 then 0
      else k + matchTotal a b fuel alo i blo j +
        matchTotal a b fuel (i + k) ahi (j + k) bhi

/-- `M`: total matched characters between `a` and `b` (difflib). -/
def matchSum (a b : List Char) : Nat :=
  matchTotal a b (a.length + 1) 0 a.length 0 b.length

/-- `SequenceMatcher(None, a, b).ratio()`: `2M / T` with `T` the total
length, and `1` when both strings are empty, as an exact rational. -/
def simRatio (a b : String) : ℚ :=
  if a.data.length + b.data.length = 0 then 1
  else (2 * matchSum a.data b.data : ℚ) / ((a.data.length + b.data.length : ℕ) : ℚ)

/-- `is_similar(a, b, threshold=0.7)`:
`SequenceMatcher(None, a.lower(), b.lower()).ratio() >= threshold`. -/
def is_similar (a b : String) (threshold : ℚ := 7/10) : Bool :=
  decide (threshold ≤ simRatio (lowerStr a) (lowerStr b))

/-- `smart_update(field, old_val, new_val, threshold=0.7)`.  The new value
is `Option String`: the program passes `None` for several derivations, and
Python's `if not new_val` treats `None` and `""` alike. -/
def smart_update (fld : String) (old_val : String) (new_val : Option String)
    (threshold : ℚ := 7/10) : String :=
  match new_val with
  | none => old_val
  | some nv =>
    if nv = "" then old_val
    else if old_val = "" then nv
    else if lowerStr old_val = lowerStr nv then old_val
    else if is_similar old_val nv threshold then nv
    else old_val

/-- A CSL-JSON value that the program accepts either as a string or as a
list of strings (titles and subtitles). -/
inductive StrOrList where
  | str : String → StrOrList
  | list : List String → StrOrList
deriving DecidableEq

/-- The string the program extracts from a string-or-list field:
the value itself, the first list element, or `""`. -/
def strOrListVal : Option StrOrList → String
  | none => ""
  | some (.str s) => s
  | some (.list l) => l.headD ""

/-- A structured author in a metadata document; either name part may be
missing. -/
structure Author where
  family : Option String := none
  given : Option String := none
deriving DecidableEq

/-- The metadata `author` field: a list of structured authors, or a value
of some other shape (the program keeps the old value in that case). -/
inductive AuthorsField where
  | list : List Author → AuthorsField
  | nonList : AuthorsField
deriving DecidableEq

/-- A fetched CSL-JSON metadata document, restricted to the shapes the
program reads.  `issued` is the first `date-parts` group: a year and an
optional month number (the program reads `date-parts[0][0]` and, when
present, `date-parts[0][1]`).  `event` is the optional `event` object
with its optional `name`.  Absent `container-title` and an empty list are
interchangeable for the program, so the former is plain `List String`. -/
structure Metadata where
  author : Option AuthorsField := none
  title : Option StrOrList := none
  subtitle : Option StrOrList := none
  containerTitle : List String := []
  collectionTitle : Option (List String) := none
  event : Option (Option String) := none
  publisher : Option String := none
  issued : Option (Int × Option Int) := none
  volume : Option String := none
  issue : Option String := none
  page : Option String := none
  doi : Option String := none
deriving DecidableEq

/-- A bibliographic entry: kind (`ENTRYTYPE`), key (`ID`), and the
remaining fields as an association list from field name to value. -/
structure Entry where
  entrytype : String
  id : String
  fields : List (String × String)
deriving DecidableEq

/-- `entry.get(k)`: the value of field `k`, if present. -/
def lookupField (e : Entry) (k : String) : Option String :=
  (e.fields.find? (fun p => p.1 == k)).map Prod.snd

/-- `entry.get(k, "")`: the value of field `k`, defaulting to `""`. -/
def getF (e : Entry) (k : String) : String :=
  (lookupField e k).getD ""

/-- `" and "`-joined `"Family, Given"` author rendering, skipping authors
missing either name part (`clean_entry`, author derivation). -/
def joinAuthors (l : List Author) : String :=
  String.intercalate " and " (l.filterMap (fun a =>
    match a.family, a.given with
    | some f, some g => some (f ++ ", " ++ g)
    | _, _ => none))

/-- Container title resolution (`clean_entry`): `container-title`, then
`collection-title` when the former is empty, then the event name when both
are empty and the event has a non-empty name. -/
def containerOf (md : Metadata) : List String :=
  let c := md.containerTitle
  let c := if c = [] then (match md.collectionTitle with
    | some l => l
    | none => []) else c
  if c = [] then
    match md.event with
    | some (some name) => if name = "" then [] else [name]
    | _ => []
  else c

/-- `container_title = container[0] if container else None`. -/
def containerTitleOf (md : Metadata) : Option String :=
  (containerOf md).head?

/-- Year derivation (`clean_entry`): `str(issued.date-parts[0][0])`
when issued date parts are present. -/
def deriveYear (md : Metadata) : Option String :=
  match md.issued with
  | some (y, _) => some (toString y)
  | none => none

/-- The three-letter English month abbreviations used by `clean_entry`. -/
def monthAbbrev (m : Int) : String :=
  ["Jan", "Feb", "Mar", "Apr", "May", "Jun",
   "Jul", "Aug", "Sep", "Oct", "Nov", "Dec"].getD (m - 1).toNat ""

/-- Month derivation (`clean_entry`): `date-parts[0][1]` mapped to an
abbreviation when present and in range 1..12, otherwise no value. -/
def deriveMonth (md : Metadata) : Option String :=
  match md.issued with
  | some (_, some m) => if 1 ≤ m ∧ m ≤ 12 then some (monthAbbrev m) else none
  | _ => none

/-- `str(metadata.get(field)) if metadata.get(field) else None`: a present
but empty value is treated as absent. -/
def optStr : Option String → Option String
  | none => none
  | some s => if s = "" then none else some s

/-- `new_val.replace("-", "--")` (`clean_entry`, page derivation).  The
pattern is the single character `-`, so the replacement doubles every
hyphen. -/
def doubleDashes (s : String) : String :=
  ⟨s.data.flatMap (fun c => if c = '-' then ['-', '-'] else [c])⟩

/-- The record `clean_entry` builds when the inner title gate passes:
a fresh record holding exactly the target fields, each merged through
`smart_update` (except the title, which is overwritten by a non-empty
fetched title). -/
def mergeFields (entry : Entry) (metadata : Metadata) : Entry :=
  let old_title := getF entry "title"
  let title := strOrListVal metadata.title
  let authorVal :=
      match metadata.author with
      | some (.list l) =>
        smart_update "author" (getF entry "author") (some (joinAuthors l))
      | some .nonList => getF entry "author"
      | none => getF entry "author"
  let titleVal := if title = "" then old_title else title
  let containerFields :=
    if entry.entrytype = "article" then
      [("journal", smart_update "journal" (getF entry "journal")
        (containerTitleOf metadata))]
    else if entry.entrytype = "inproceedings" ∨
        entry.entrytype = "incollection" then
      [("booktitle", smart_update "booktitle" (getF entry "booktitle")
        (containerTitleOf metadata))]
    else []
  { entrytype := entry.entrytype
    id := entry.id
    fields :=
      [("author", authorVal), ("title", titleVal)] ++ containerFields ++
      [("publisher", smart_update "publisher" (getF entry "publisher")
          metadata.publisher),
       ("year", smart_update "year" (getF entry "year") (deriveYear metadata)),
       ("month", smart_update "month" (getF entry "month") (deriveMonth metadata)),
       ("volume", smart_update "volume" (getF entry "volume")
          (optStr metadata.volume)),
       ("number", smart_update "number" (getF entry "number")
          (optStr metadata.issue)),
       ("page", smart_update "page" (getF entry "page")
          ((optStr metadata.page).map doubleDashes)),
       ("doi", smart_update "doi" (getF entry "doi") (optStr metadata.doi))] }

/-- `clean_entry(entry, metadata)`: the field reconciler.  Inner title
gate against the main fetched title at the default threshold; on failure
the original entry is returned unmodified, otherwise the per-field merge
record. -/
def clean_entry (entry : Entry) (metadata : Metadata) : Entry :=
  if is_similar (getF entry "title") (strOrListVal metadata.title) then
    mergeFields entry metadata
  else entry

/-- The fetched title used by the pipeline gate:
`"title: subtitle"` when a subtitle exists, else the main title. -/
def fullTitle (md : Metadata) : String :=
  let m := strOrListVal md.title
  let s := strOrListVal md.subtitle
  if s = "" then m else m ++ ": " ++ s

/-- The pipeline step for a record once a metadata document was fetched:
title-similarity gate at the default threshold, then `clean_entry`,
else pass-through. -/
def processFetched (entry : Entry) (metadata : Metadata) : Entry :=
  if is_similar (getF entry "title") (fullTitle metadata) then
    clean_entry entry metadata
  else entry

/-- The pipeline step for a record given the (possibly absent) fetched
metadata: pass-through when none was obtained. -/
def processEntry (entry : Entry) (md : Option Metadata) : Entry :=
  match md with
  | some metadata => processFetched entry metadata
  | none => entry

/-- `entry.get("doi")` with Python truthiness: an absent or empty DOI
field yields nothing. -/
def entryDoi (e : Entry) : Option String :=
  match lookupField e "doi" with
  | none => none
  | some d => if d = "" then none else some d

/-- `author_field.split(" and ")[0] if author_field else None`. -/
def firstAuthor (e : Entry) : Option String :=
  let af := getF e "author"
  if af = "" then none else some ((af.splitOn " and ").headD "")

/-- One iteration of the main loop, with the two network resolvers as
oracles: use the entry's DOI or fall back to the title/author search;
fetch metadata for a (truthy) DOI; then the gated reconciliation. -/
def pipelineEntry (searchO : String → Option String → Option String)
    (fetchO : String → Option Metadata) (e : Entry) : Entry :=
  let doi := match entryDoi e with
    | some d => some d
    | none => searchO (getF e "title") (firstAuthor e)
  let md := match doi with
    | some d => if d = "" then none else fetchO d
    | none => none
  processEntry e md

/-- A candidate work returned by the search index
(`find_doi_by_title_author`): its title, subtitle and DOI. -/
structure Item where
  title : Option StrOrList := none
  subtitle : Option StrOrList := none
  doi : Option String := none
deriving DecidableEq

/-- A candidate's full title: `"title: subtitle"` when a subtitle exists. -/
def itemFullTitle (it : Item) : String :=
  let m := strOrListVal it.title
  let s := strOrListVal it.subtitle
  if s = "" then m else m ++ ": " ++ s

/-- The similarity the search loop computes between the query title and a
candidate. -/
def simTo (title : String) (it : Item) : ℚ :=
  simRatio (lowerStr title) (lowerStr (itemFullTitle it))

/-- One step of the best-candidate selection loop: keep the candidate when
its similarity strictly exceeds the best so far. -/
def selStep (title : String) (acc : Option Item × ℚ) (it : Item) :
    Option Item × ℚ :=
  if acc.2 < simTo title it then (some it, simTo title it) else acc

/-- `if best_match and highest_similarity > 0.7: return best_match.get("DOI")`:
the acceptance decision on the final selection state. -/
def bestDoi : Option Item × ℚ → Option String
  | (some bm, hs) => if (7 : ℚ)/10 < hs then bm.doi else none
  | (none, _) => none

/-- The decision logic of `find_doi_by_title_author` over the candidate
list received from the search index: select the best candidate and return
its DOI when the best similarity strictly exceeds `0.7`. -/
def find_doi_by_title_author (title : String) (items : List Item) :
    Option String :=
  bestDoi (items.foldl (selStep title) (none, 0))

/-- The field names a reconciled record carries, in output order, by kind. -/
def targetKeys (et : String) : List String :=
  ["author", "title"] ++
  (if et = "article" then ["journal"]
   else if et = "inproceedings" ∨ et = "incollection" then ["booktitle"]
   else []) ++
  ["publisher", "year", "month", "volume", "number", "page", "doi"]

/-- The value `clean_entry` derives from the metadata document for a given
output field, when it derives one. -/
def derived (md : Metadata) (k : String) : Option String :=
  if k = "author" then
    match md.author with
    | some (.list l) => some (joinAuthors l)
    | _ => none
  else if k = "title" then
    (if strOrListVal md.title = "" then none else some (strOrListVal md.title))
  else if k = "journal" ∨ k = "booktitle" then containerTitleOf md
  else if k = "publisher" then md.publisher
  else if k = "year" then deriveYear md
  else if k = "month" then deriveMonth md
  else if k = "volume" then optStr md.volume
  else if k = "number" then optStr md.issue
  else if k = "page" then (optStr md.page).map doubleDashes
  else if k = "doi" then optStr md.doi
  else none

/-- Evaluation helper: `is_similar` at concrete strings, given the matched
total and the combined length. -/
theorem is_similar_concrete (a b : String) (t : ℚ) (m T : ℕ)
    (hm : matchSum (lowerStr a).data (lowerStr b).data = m)
    (hT : (lowerStr a).data.length + (lowerStr b).data.length = T)
    (hT0 : T ≠ 0) :
    is_similar a b t = decide (t ≤ 2 * (m : ℚ) / (T : ℚ)) := by
  simp only [is_similar, simRatio, hm, hT]
  rw [if_neg hT0]

/-- `smart_update` can only answer the old value or the offered value. -/
theorem smart_update_cases (fld old : String) (nv : Option String) (t : ℚ) :
    smart_update fld old nv t = old ∨
      ∃ v, nv = some v ∧ smart_update fld old nv t = v := by
  cases nv with
  | none => exact Or.inl rfl
  | some v =>
    unfold smart_update
    by_cases h1 : v = "" <;> by_cases h2 : old = "" <;>
      by_cases h3 : lowerStr old = lowerStr v <;>
      cases h4 : is_similar old v t <;>
      simp [h1, h2, h3, h4]

/-- A DOI extracted from the entry is non-empty. -/
theorem entryDoi_ne_empty (e : Entry) (d : String)
    (h : entryDoi e = some d) : d ≠ "" := by
  unfold entryDoi at h
  cases hl : lookupField e "doi" with
  | none => rw [hl] at h; cases h
  | some d' =>
    rw [hl] at h
    have h' : (if d' = "" then none else some d') = some d := h
    by_cases hq : d' = ""
    · rw [if_pos hq] at h'; cases h'
    · rw [if_neg hq] at h'
      injection h' with h'
      subst h'; exact hq

/-- `mergeFields` preserves kind and key. -/
theorem mergeFields_type_id (e : Entry) (md : Metadata) :
    (mergeFields e md).entrytype = e.entrytype ∧
    (mergeFields e md).id = e.id := ⟨rfl, rfl⟩

/-- `clean_entry` preserves kind and key. -/
theorem clean_entry_type_id (e : Entry) (md : Metadata) :
    (clean_entry e md).entrytype = e.entrytype ∧
    (clean_entry e md).id = e.id := by
  unfold clean_entry
  split
  · exact mergeFields_type_id e md
  · exact ⟨rfl, rfl⟩

/-- `processEntry` preserves kind and key. -/
theorem processEntry_type_id (e : Entry) (md : Option Metadata) :
    (processEntry e md).entrytype = e.entrytype ∧
    (processEntry e md).id = e.id := by
  cases md with
  | none => exact ⟨rfl, rfl⟩
  | some m =>
    show (processFetched e m).entrytype = _ ∧ (processFetched e m).id = _
    unfold processFetched
    split
    · exact clean_entry_type_id e m
    · exact ⟨rfl, rfl⟩

/-- C1: the pipeline-level title gate is absolute: when the similarity of
the original title to the fetched title (with subtitle when present) is
below the 0.7 threshold, the emitted record is the input record itself,
whatever the metadata's other fields hold. -/
theorem C1_title_gate_absolute (e : Entry) (md : Metadata)
    (h : is_similar (getF e "title") (fullTitle md) = false) :
    processFetched e md = e := by
  unfold processFetched
  rw [h]
  simp

/-- C1 witness: a concrete record and metadata document with dissimilar
titles pass through unchanged. -/
theorem C1_title_gate_absolute_witness :
    is_similar (getF ⟨"misc", "k1", [("title", "aaaa")]⟩ "title")
      (fullTitle { title := some (.str "zzzz"), volume := some "9" }) = false ∧
    processFetched ⟨"misc", "k1", [("title", "aaaa")]⟩
      { title := some (.str "zzzz"), volume := some "9" } =
      ⟨"misc", "k1", [("title", "aaaa")]⟩ := by
  have h : is_similar (getF ⟨"misc", "k1", [("title", "aaaa")]⟩ "title")
      (fullTitle { title := some (.str "zzzz"), volume := some "9" }) = false := by
    rw [is_similar_concrete _ _ _ 0 8 (by decide) (by decide) (by decide)]
    norm_num
  exact ⟨h, C1_title_gate_absolute _ _ h⟩

/-- C2: pass-through on missing metadata: when the record has no (truthy)
DOI and the title/author search yields none, or it has one and the
identifier lookup yields none, the emitted record is the input itself. -/
theorem C2_pass_through_no_metadata
    (searchO : String → Option String → Option String)
    (fetchO : String → Option Metadata) (e : Entry)
    (h : (entryDoi e = none ∧
        searchO (getF e "title") (firstAuthor e) = none) ∨
      (∃ d, entryDoi e = some d ∧ fetchO d = none)) :
    pipelineEntry searchO fetchO e = e := by
  unfold pipelineEntry
  rcases h with ⟨h1, h2⟩ | ⟨d, h1, h2⟩
  · rw [h1, h2]
    rfl
  · have hd : d ≠ "" := entryDoi_ne_empty e d h1
    rw [h1]
    simp only [if_neg hd, h2]
    rfl

/-- C2 witness: a concrete record with no DOI field, with both resolvers
answering none, passes through unchanged. -/
theorem C2_pass_through_no_metadata_witness :
    entryDoi ⟨"misc", "k1", [("title", "t")]⟩ = none ∧
    pipelineEntry (fun _ _ => none) (fun _ => none)
      ⟨"misc", "k1", [("title", "t")]⟩ = ⟨"misc", "k1", [("title", "t")]⟩ :=
  ⟨rfl, C2_pass_through_no_metadata _ _ _ (Or.inl ⟨rfl, rfl⟩)⟩

/-- C4: the emitted record always keeps the input record's key (`ID`) and
kind (`ENTRYTYPE`), reconciled or passed through. -/
theorem C4_key_kind_preserved
    (searchO : String → Option String → Option String)
    (fetchO : String → Option Metadata) (e : Entry) :
    (pipelineEntry searchO fetchO e).entrytype = e.entrytype ∧
    (pipelineEntry searchO fetchO e).id = e.id :=
  processEntry_type_id e _

/-- C5: `smart_update` totality: the result is always exactly the old or
the offered value, following the branch order of the source: old when the
new value is empty, new when only the old is empty, old on case-insensitive
equality, new on similarity at the threshold, old otherwise. -/
theorem C5_smart_update_totality (fld old new : String) (t : ℚ) :
    (smart_update fld old (some new) t = old ∨
      smart_update fld old (some new) t = new) ∧
    (new = "" → smart_update fld old (some new) t = old) ∧
    (new ≠ "" → old = "" → smart_update fld old (some new) t = new) ∧
    (new ≠ "" → old ≠ "" → lowerStr old = lowerStr new →
      smart_update fld old (some new) t = old) ∧
    (new ≠ "" → old ≠ "" → lowerStr old ≠ lowerStr new →
      is_similar old new t = true → smart_update fld old (some new) t = new) ∧
    (new ≠ "" → old ≠ "" → lowerStr old ≠ lowerStr new →
      is_similar old new t = false →
      smart_update fld old (some new) t = old) := by
  unfold smart_update
  by_cases h1 : new = "" <;> by_cases h2 : old = "" <;>
    by_cases h3 : lowerStr old = lowerStr new <;>
    cases h4 : is_similar old new t <;>
    simp [h1, h2, h3, h4]

/-- C5 witness: gap filling and empty-new pass-through at concrete
values. -/
theorem C5_smart_update_totality_witness :
    smart_update "f" "" (some "b") (7/10) = "b" ∧
    smart_update "f" "a" (some "") (7/10) = "a" :=
  ⟨(C5_smart_update_totality "f" "" "b" (7/10)).2.2.1 (by decide) rfl,
   (C5_smart_update_totality "f" "a" "" (7/10)).2.1 rfl⟩

/-- C10: the reconciler's own title gate compares against the main fetched
title alone; when that similarity is below 0.7, `clean_entry` returns the
original record, and so does the whole per-record step, even though the
pipeline gate saw the subtitle-extended title. -/
theorem C10_inner_title_gate (e : Entry) (md : Metadata)
    (hsub : strOrListVal md.subtitle ≠ "")
    (h : is_similar (getF e "title") (strOrListVal md.title) = false) :
    clean_entry e md = e ∧ processFetched e md = e := by
  have hc : clean_entry e md = e := by
    unfold clean_entry
    rw [h]
    simp
  refine ⟨hc, ?_⟩
  unfold processFetched
  split
  · exact hc
  · rfl

/-- C10 witness: a concrete document with a subtitle whose main title is
dissimilar from the record's title is never merged. -/
theorem C10_inner_title_gate_witness :
    strOrListVal (Metadata.subtitle
      { title := some (.str "zzzz"), subtitle := some (.str "bb") }) ≠ "" ∧
    clean_entry ⟨"misc", "k1", [("title", "aaaa")]⟩
      { title := some (.str "zzzz"), subtitle := some (.str "bb") } =
      ⟨"misc", "k1", [("title", "aaaa")]⟩ := by
  have h : is_similar (getF ⟨"misc", "k1", [("title", "aaaa")]⟩ "title")
      (strOrListVal (Metadata.title
        { title := some (.str "zzzz"), subtitle := some (.str "bb") })) =
      false := by
    rw [is_similar_concrete _ _ _ 0 8 (by decide) (by decide) (by decide)]
    norm_num
  exact ⟨by decide, (C10_inner_title_gate _ _ (by decide) h).1⟩

/-- The right extension loop does not move when the block already touches
the end of the `a` interval. -/
theorem extendRightAux_stop (a b : List Char) (ahi bhi besti bestj : Nat)
    (fuel bestsize : Nat) (h : ¬ besti + bestsize < ahi) :
    extendRightAux a b ahi bhi besti bestj fuel bestsize = bestsize := by
  cases fuel with
  | zero => rfl
  | succ n =>
    unfold extendRightAux
    rw [if_neg (fun hc => h hc.1)]

/-- The right extension loop does not move when the block already touches
the end of the `b` interval. -/
theorem extendRightAux_stop_b (a b : List Char) (ahi bhi besti bestj : Nat)
    (fuel bestsize : Nat) (h : ¬ bestj + bestsize < bhi) :
    extendRightAux a b ahi bhi besti bestj fuel bestsize = bestsize := by
  cases fuel with
  | zero => rfl
  | succ n =>
    unfold extendRightAux
    rw [if_neg (fun hc => h hc.2.1)]

/-- The left extension loop does not move when the block already touches
the start of the `a` interval. -/
theorem extendLeftAux_stop (a b : List Char) (alo blo : Nat)
    (fuel besti bestj bestsize : Nat) (h : ¬ alo < besti) :
    extendLeftAux a b alo blo fuel besti bestj bestsize =
      (besti, bestj, bestsize) := by
  cases fuel with
  | zero => rfl
  | succ n =>
    unfold extendLeftAux
    rw [if_neg (fun hc => h hc.1)]

/-- No positions match any character in an empty second string. -/
theorem b2j_nil (c : Char) : b2j [] c = [] := rfl

/-- A row with no candidate positions leaves the search state unchanged
and empties the length table. -/
theorem flmRow_nil (j2len : List (Nat × Nat)) (i : Nat) (st : FLMState) :
    flmRow j2len [] i st = ([], st) := rfl

/-- With an empty second string the dynamic programming search finds
nothing. -/
theorem flmDP_nil_right (a : List Char) (alo ahi blo bhi : Nat) :
    flmDP a [] alo ahi blo bhi = FLMState.mk alo blo 0 := by
  unfold flmDP
  have : ∀ (l : List Nat) (acc : List (Nat × Nat) × FLMState),
      (l.foldl (fun acc i =>
        let js := (b2j [] (a.getD i c0)).filter
          (fun j => decide (blo ≤ j ∧ j < bhi))
        flmRow acc.1 js i acc.2) acc) = ([], acc.2) ∨
      (l.foldl (fun acc i =>
        let js := (b2j [] (a.getD i c0)).filter
          (fun j => decide (blo ≤ j ∧ j < bhi))
        flmRow acc.1 js i acc.2) acc) = acc := by
    intro l
    induction l with
    | nil => exact fun acc => Or.inr rfl
    | cons x xs ih =>
      intro acc
      rw [List.foldl_cons]
      rcases ih (flmRow acc.1 [] x acc.2) with h | h
      · rw [flmRow_nil] at h
        exact Or.inl h
      · rw [flmRow_nil] at h
        exact Or.inl h
  rcases this (List.range' alo (ahi - alo)) ([], FLMState.mk alo blo 0)
    with h | h <;> rw [h]

/-- Unfolding equation of `matchTotal` at positive fuel. -/
theorem matchTotal_succ (a b : List Char) (fuel alo ahi blo bhi : Nat) :
    matchTotal a b (fuel + 1) alo ahi blo bhi =
      (match findLongestMatch a b alo ahi blo bhi with
      | (i, j, k) =>
        if k = 0 then 0
        else k + matchTotal a b fuel alo i blo j +
          matchTotal a b fuel (i + k) ahi (j + k) bhi) := rfl

/-- Matching an empty first string yields no matched characters. -/
theorem matchSum_nil_left (b : List Char) : matchSum [] b = 0 := by
  have h : findLongestMatch [] b 0 0 0 b.length = (0, 0, 0) := by
    show (0, 0, extendRightAux [] b 0 b.length 0 0 b.length 0) = (0, 0, 0)
    rw [extendRightAux_stop [] b 0 b.length 0 0 b.length 0 (by omega)]
  show matchTotal [] b (0 + 1) 0 0 0 b.length = 0
  rw [matchTotal_succ, h]
  rfl

/-- Matching an empty second string yields no matched characters. -/
theorem matchSum_nil_right (a : List Char) : matchSum a [] = 0 := by
  have h : findLongestMatch a [] 0 a.length 0 0 = (0, 0, 0) := by
    have h1 : flmDP a [] 0 a.length 0 0 = FLMState.mk 0 0 0 :=
      flmDP_nil_right a 0 a.length 0 0
    show (let st := flmDP a [] 0 a.length 0 0;
      let l := extendLeftAux a [] 0 0 st.besti st.besti st.bestj st.bestsize;
      let size := extendRightAux a [] a.length 0 l.1 l.2.1 0 l.2.2;
      (l.1, l.2.1, size)) = (0, 0, 0)
    rw [h1]
    show (0, 0, extendRightAux a [] a.length 0 0 0 0 0) = (0, 0, 0)
    rw [extendRightAux_stop_b a [] a.length 0 0 0 0 0 (by omega)]
  show matchTotal a [] (a.length + 1) 0 a.length 0 0 = 0
  rw [matchTotal_succ, h]
  rfl

/-- A string lowercases to the empty string only if it is empty. -/
theorem lowerStr_eq_empty_iff (s : String) : lowerStr s = "" ↔ s = "" := by
  constructor
  · intro h
    have hd : (lowerStr s).data = [] := by rw [h]
    have : s.data.map Char.toLower = [] := hd
    rcases List.map_eq_nil_iff.mp this with h'
    exact String.ext h'
  · intro h; rw [h]; rfl

/-- The ratio of the empty string against a non-empty string is zero. -/
theorem simRatio_left_empty (s : String) (h : s ≠ "") : simRatio "" s = 0 := by
  unfold simRatio
  have hne : s.data ≠ [] := fun hc => h (String.ext hc)
  have hlen : s.data.length ≠ 0 := fun hc => hne (List.length_eq_zero.mp hc)
  rw [if_neg (by simpa using hlen)]
  have hms : matchSum "".data s.data = 0 := matchSum_nil_left s.data
  rw [hms]
  simp

/-- The ratio of a non-empty string against the empty string is zero. -/
theorem simRatio_right_empty (s : String) (h : s ≠ "") :
    simRatio s "" = 0 := by
  unfold simRatio
  have hne : s.data ≠ [] := fun hc => h (String.ext hc)
  have hlen : s.data.length ≠ 0 := fun hc => hne (List.length_eq_zero.mp hc)
  rw [if_neg (by simpa using hlen)]
  have hms : matchSum s.data "".data = 0 := matchSum_nil_right s.data
  rw [hms]
  simp

/-- C7 counterexample: at the default threshold, the similarity predicate
answers true when both strings are empty (the ratio of two empty
sequences is 1), contradicting the claim that it is false whenever either
argument is empty, including both empty. -/
theorem C7_similar_empty_counterexample : is_similar "" "" = true := by
  unfold is_similar
  rw [show lowerStr "" = "" from rfl, show simRatio "" "" = 1 from rfl]
  exact decide_eq_true (by norm_num)

/-- C7 (amended): for a positive threshold the predicate is false whenever
exactly one argument is empty (the ratio is then 0); when both arguments
are empty the ratio is 1, so the predicate is true at any threshold at
most 1, including the default 0.7. -/
theorem C7_similar_empty_amended (s : String) (t : ℚ) :
    (s ≠ "" → 0 < t →
      is_similar "" s t = false ∧ is_similar s "" t = false) ∧
    (t ≤ 1 → is_similar "" "" t = true) := by
  constructor
  · intro hs ht
    have h1 : lowerStr s ≠ "" := fun hc => hs ((lowerStr_eq_empty_iff s).mp hc)
    constructor
    · unfold is_similar
      rw [show lowerStr "" = "" from rfl, simRatio_left_empty _ h1]
      exact decide_eq_false (not_le.mpr ht)
    · unfold is_similar
      rw [show lowerStr "" = "" from rfl, simRatio_right_empty _ h1]
      exact decide_eq_false (not_le.mpr ht)
  · intro ht
    unfold is_similar
    rw [show lowerStr "" = "" from rfl, show simRatio "" "" = 1 from rfl]
    exact decide_eq_true ht

/-- C7 witness: at the default threshold, comparing the empty string with
a concrete non-empty string in either order is not similar, while two
empty strings are. -/
theorem C7_similar_empty_amended_witness :
    is_similar "" "x" (7/10) = false ∧ is_similar "x" "" (7/10) = false ∧
    is_similar "" "" (7/10) = true := by
  obtain ⟨h1, h2⟩ :=
    (C7_similar_empty_amended "x" (7/10)).1 (by decide) (by norm_num)
  exact ⟨h1, h2, (C7_similar_empty_amended "x" (7/10)).2 (by norm_num)⟩

/-- When the inner title gate passes, `clean_entry` answers the merge
record. -/
theorem clean_entry_pos (e : Entry) (md : Metadata)
    (h : is_similar (getF e "title") (strOrListVal md.title) = true) :
    clean_entry e md = mergeFields e md := by
  unfold clean_entry
  rw [h]
  simp

/-- The title field of the merge record: the fetched main title when
non-empty, the original title otherwise. -/
theorem mergeFields_title (e : Entry) (md : Metadata) :
    lookupField (mergeFields e md) "title" =
      some (if strOrListVal md.title = "" then getF e "title"
        else strOrListVal md.title) := by
  unfold mergeFields lookupField
  simp [List.find?]

/-- The page field of the merge record: smart update against the
hyphen-doubled metadata page value. -/
theorem mergeFields_page (e : Entry) (md : Metadata) :
    lookupField (mergeFields e md) "page" =
      some (smart_update "page" (getF e "page")
        ((optStr md.page).map doubleDashes)) := by
  unfold mergeFields lookupField
  by_cases h1 : e.entrytype = "article"
  · simp [List.find?, h1]
  · by_cases h2 : e.entrytype = "inproceedings" ∨ e.entrytype = "incollection"
    · simp [List.find?, h1, h2]
    · simp [List.find?, h1, h2]

/-- C6 counterexample: with original title `"ab"` and fetched title
`"Ab"` (equal ignoring case, different capitalization) the reconciler
emits the fetched title, not the original one as the claim demands. -/
theorem C6_title_not_smart_updated_counterexample :
    lowerStr "ab" = lowerStr "Ab" ∧ ("ab" : String) ≠ "Ab" ∧
    is_similar (getF ⟨"misc", "k1", [("title", "ab")]⟩ "title")
      (strOrListVal (Metadata.title { title := some (.str "Ab") })) = true ∧
    lookupField (clean_entry ⟨"misc", "k1", [("title", "ab")]⟩
      { title := some (.str "Ab") }) "title" = some "Ab" := by
  have hg : is_similar (getF ⟨"misc", "k1", [("title", "ab")]⟩ "title")
      (strOrListVal (Metadata.title { title := some (.str "Ab") })) = true := by
    rw [is_similar_concrete _ _ _ 2 4 (by decide) (by decide) (by decide)]
    norm_num
  refine ⟨by decide, by decide, hg, ?_⟩
  rw [clean_entry_pos _ _ hg]
  decide

/-- C6 (amended): the title is not decided by the per-field smart-update
rule: whenever the gate passes and the fetched main title is non-empty,
the output title is the fetched title — in particular also when it equals
the original ignoring case but differs in capitalization. -/
theorem C6_title_replaced_amended (e : Entry) (md : Metadata)
    (hg : is_similar (getF e "title") (strOrListVal md.title) = true)
    (hne : strOrListVal md.title ≠ "") :
    lookupField (clean_entry e md) "title" =
      some (strOrListVal md.title) := by
  rw [clean_entry_pos _ _ hg, mergeFields_title, if_neg hne]

/-- C6 witness: the amended rule at a concrete record and document. -/
theorem C6_title_replaced_amended_witness :
    lookupField (clean_entry ⟨"misc", "k2", [("title", "deep learning")]⟩
      { title := some (.str "Deep Learning") }) "title" =
      some "Deep Learning" := by
  have hg : is_similar (getF ⟨"misc", "k2", [("title", "deep learning")]⟩
      "title")
      (strOrListVal (Metadata.title { title := some (.str "Deep Learning") }))
      = true := by
    rw [is_similar_concrete _ _ _ 13 26 (by decide) (by decide) (by decide)]
    norm_num
  exact C6_title_replaced_amended _ _ hg (by decide)

/-- C9 counterexample: the program doubles every hyphen of the page value,
so a value whose hyphens are not single hyphens between numbers is not
left as it is: `"1--2"` is offered (and, the old page being absent,
adopted) as `"1----2"`. -/
theorem C9_page_counterexample :
    doubleDashes "1--2" = "1----2" ∧
    lookupField (clean_entry ⟨"misc", "k1", [("title", "ab")]⟩
      { title := some (.str "ab"), page := some "1--2" }) "page" =
      some "1----2" := by
  have hg : is_similar (getF ⟨"misc", "k1", [("title", "ab")]⟩ "title")
      (strOrListVal (Metadata.title
        { title := some (.str "ab"), page := some "1--2" })) = true := by
    rw [is_similar_concrete _ _ _ 2 4 (by decide) (by decide) (by decide)]
    norm_num
  refine ⟨by decide, ?_⟩
  rw [clean_entry_pos _ _ hg]
  decide

/-- C9 (amended): every hyphen of the metadata's page value is doubled
before the value is offered to the smart-update comparison; in particular
`"123-130"` is offered as `"123--130"`, but hyphens that are not single
hyphens between numbers are doubled as well. -/
theorem C9_page_hyphens_amended (e : Entry) (md : Metadata) (p : String)
    (hg : is_similar (getF e "title") (strOrListVal md.title) = true)
    (hp : md.page = some p) (hp0 : p ≠ "") :
    lookupField (clean_entry e md) "page" =
      some (smart_update "page" (getF e "page") (some (doubleDashes p))) ∧
    doubleDashes "123-130" = "123--130" := by
  constructor
  · rw [clean_entry_pos _ _ hg, mergeFields_page]
    unfold optStr
    rw [hp]
    simp [hp0]
  · decide

/-- C9 witness: the amended page rule at a concrete record and document
carrying page `"123-130"`. -/
theorem C9_page_hyphens_amended_witness :
    lookupField (clean_entry ⟨"misc", "k1", [("title", "ab")]⟩
      { title := some (.str "ab"), page := some "123-130" }) "page" =
      some (smart_update "page"
        (getF ⟨"misc", "k1", [("title", "ab")]⟩ "page")
        (some (doubleDashes "123-130"))) := by
  have hg : is_similar (getF ⟨"misc", "k1", [("title", "ab")]⟩ "title")
      (strOrListVal (Metadata.title
        { title := some (.str "ab"), page := some "123-130" })) = true := by
    rw [is_similar_concrete _ _ _ 2 4 (by decide) (by decide) (by decide)]
    norm_num
  exact (C9_page_hyphens_amended _ _ "123-130" hg rfl (by decide)).1

/-- Every field value the merge record holds is either the entry's old
value for that field or the value derived from the metadata document. -/
theorem mergeFields_mem (e : Entry) (md : Metadata) (p : String × String)
    (hp : p ∈ (mergeFields e md).fields) :
    p.2 = getF e p.1 ∨ derived md p.1 = some p.2 := by
  have hsu : ∀ (fld old : String) (nv : Option String),
      (derived md fld = nv) →
      smart_update fld old nv = old ∨
        derived md fld = some (smart_update fld old nv) := by
    intro fld old nv hd
    rcases smart_update_cases fld old nv (7/10) with h | ⟨v, hv, h⟩
    · exact Or.inl h
    · subst hv
      right
      rw [h, hd]
  unfold mergeFields at hp
  simp only [List.mem_append, List.mem_cons, List.not_mem_nil, or_false]
    at hp
  rcases hp with ((h | h) | h) | h | h | h | h | h | h | h
  · -- author
    subst h
    cases hma : md.author with
    | none => exact Or.inl rfl
    | some af =>
      cases af with
      | nonList => exact Or.inl rfl
      | list l =>
        have hd : derived md "author" = some (joinAuthors l) := by
          show (match md.author with
            | some (.list l) => some (joinAuthors l)
            | _ => none) = some (joinAuthors l)
          rw [hma]
        exact hsu "author" (getF e "author") (some (joinAuthors l)) hd
  · -- title
    subst h
    by_cases ht : strOrListVal md.title = ""
    · show (if strOrListVal md.title = "" then getF e "title"
        else strOrListVal md.title) = getF e "title" ∨ _
      rw [if_pos ht]
      exact Or.inl rfl
    · right
      show derived md "title" =
        some (if strOrListVal md.title = "" then getF e "title"
          else strOrListVal md.title)
      rw [if_neg ht]
      show (if strOrListVal md.title = "" then none
        else some (strOrListVal md.title)) = _
      rw [if_neg ht]
  · -- journal / booktitle (container branch)
    by_cases h1 : e.entrytype = "article"
    · rw [if_pos h1] at h
      simp only [List.mem_cons, List.not_mem_nil, or_false] at h
      subst h
      exact hsu "journal" (getF e "journal") (containerTitleOf md) rfl
    · rw [if_neg h1] at h
      by_cases h2 : e.entrytype = "inproceedings" ∨
          e.entrytype = "incollection"
      · rw [if_pos h2] at h
        simp only [List.mem_cons, List.not_mem_nil, or_false] at h
        subst h
        exact hsu "booktitle" (getF e "booktitle") (containerTitleOf md) rfl
      · rw [if_neg h2] at h
        cases h
  · -- publisher
    subst h
    exact hsu "publisher" (getF e "publisher") md.publisher rfl
  · -- year
    subst h
    exact hsu "year" (getF e "year") (deriveYear md) rfl
  · -- month
    subst h
    exact hsu "month" (getF e "month") (deriveMonth md) rfl
  · -- volume
    subst h
    exact hsu "volume" (getF e "volume") (optStr md.volume) rfl
  · -- number
    subst h
    exact hsu "number" (getF e "number") (optStr md.issue) rfl
  · -- page
    subst h
    exact hsu "page" (getF e "page") ((optStr md.page).map doubleDashes) rfl
  · -- doi
    subst h
    exact hsu "doi" (getF e "doi") (optStr md.doi) rfl

/-- The merge record holds exactly the target field names, in order. -/
theorem mergeFields_keys (e : Entry) (md : Metadata) :
    (mergeFields e md).fields.map Prod.fst = targetKeys e.entrytype := by
  unfold mergeFields targetKeys
  by_cases h1 : e.entrytype = "article"
  · simp [h1]
  · by_cases h2 : e.entrytype = "inproceedings" ∨ e.entrytype = "incollection"
    · simp [h1, h2]
    · simp [h1, h2]

/-- C3 counterexample: a reconciled record does not keep fields outside
the target set: the original `url` field is dropped from the output even
though nothing replaces it, contradicting the claim that such fields
remain unchanged. -/
theorem C3_url_dropped_counterexample :
    is_similar
      (getF ⟨"misc", "k1", [("title", "ab"), ("url", "u")]⟩ "title")
      (strOrListVal (Metadata.title { title := some (.str "ab") })) = true ∧
    lookupField ⟨"misc", "k1", [("title", "ab"), ("url", "u")]⟩ "url" =
      some "u" ∧
    lookupField (clean_entry ⟨"misc", "k1", [("title", "ab"), ("url", "u")]⟩
      { title := some (.str "ab") }) "url" = none := by
  have hg : is_similar
      (getF ⟨"misc", "k1", [("title", "ab"), ("url", "u")]⟩ "title")
      (strOrListVal (Metadata.title { title := some (.str "ab") })) = true := by
    rw [is_similar_concrete _ _ _ 2 4 (by decide) (by decide) (by decide)]
    norm_num
  refine ⟨hg, by decide, ?_⟩
  rw [clean_entry_pos _ _ hg]
  decide

/-- C3 (amended): every field value of a reconciled (non-rejected) record
is the original value or a value derived from the metadata; however, the
output holds exactly the fixed target fields (author, title,
journal/booktitle according to kind, publisher, year, month, volume,
number, page, doi) — original fields outside that set, such as `url` or
`note`, and journal/booktitle for other kinds, are dropped rather than
kept. -/
theorem C3_reconciled_fields_amended (e : Entry) (md : Metadata)
    (hg : is_similar (getF e "title") (strOrListVal md.title) = true) :
    (clean_entry e md).fields.map Prod.fst = targetKeys e.entrytype ∧
    ∀ p ∈ (clean_entry e md).fields,
      p.2 = getF e p.1 ∨ derived md p.1 = some p.2 := by
  rw [clean_entry_pos _ _ hg]
  exact ⟨mergeFields_keys e md, fun p hp => mergeFields_mem e md p hp⟩

/-- C3 witness: the amended shape at a concrete record and document. -/
theorem C3_reconciled_fields_amended_witness :
    (clean_entry ⟨"article", "k1", [("title", "ab")]⟩
      { title := some (.str "ab") }).fields.map Prod.fst =
      targetKeys (Entry.entrytype ⟨"article", "k1", [("title", "ab")]⟩) ∧
    ∀ p ∈ (clean_entry ⟨"article", "k1", [("title", "ab")]⟩
      { title := some (.str "ab") }).fields,
      p.2 = getF ⟨"article", "k1", [("title", "ab")]⟩ p.1 ∨
        derived { title := some (.str "ab") } p.1 = some p.2 := by
  have hg : is_similar (getF ⟨"article", "k1", [("title", "ab")]⟩ "title")
      (strOrListVal (Metadata.title { title := some (.str "ab") })) = true := by
    rw [is_similar_concrete _ _ _ 2 4 (by decide) (by decide) (by decide)]
    norm_num
  exact C3_reconciled_fields_amended _ _ hg

/-- Invariant of the best-candidate selection fold: the best similarity
never decreases, dominates every processed candidate, and the final state
is either the start state or a processed candidate with its similarity. -/
theorem selFold_spec (title : String) (items : List Item)
    (acc : Option Item × ℚ) :
    acc.2 ≤ (items.foldl (selStep title) acc).2 ∧
    (∀ it ∈ items, simTo title it ≤ (items.foldl (selStep title) acc).2) ∧
    ((items.foldl (selStep title) acc) = acc ∨
      ∃ it ∈ items, (items.foldl (selStep title) acc).1 = some it ∧
        (items.foldl (selStep title) acc).2 = simTo title it) := by
  induction items generalizing acc with
  | nil => exact ⟨le_refl _, by simp, Or.inl rfl⟩
  | cons x xs ih =>
    rw [List.foldl_cons]
    obtain ⟨ih1, ih2, ih3⟩ := ih (selStep title acc x)
    have hstep : acc.2 ≤ (selStep title acc x).2 ∧
        simTo title x ≤ (selStep title acc x).2 ∧
        (selStep title acc x = acc ∨
          ((selStep title acc x).1 = some x ∧
           (selStep title acc x).2 = simTo title x)) := by
      unfold selStep
      by_cases hc : acc.2 < simTo title x
      · rw [if_pos hc]
        exact ⟨le_of_lt hc, le_refl _, Or.inr ⟨rfl, rfl⟩⟩
      · rw [if_neg hc]
        exact ⟨le_refl _, not_lt.mp hc, Or.inl rfl⟩
    refine ⟨le_trans hstep.1 ih1, ?_, ?_⟩
    · intro it hit
      rcases List.mem_cons.mp hit with h | h
      · rw [h]
        exact le_trans hstep.2.1 ih1
      · exact ih2 it h
    · rcases ih3 with h | ⟨it, hit, hi1, hi2⟩
      · rw [h]
        rcases hstep.2.2 with h' | ⟨hs1, hs2⟩
        · rw [h']
          exact Or.inl rfl
        · exact Or.inr ⟨x, List.mem_cons_self x xs, hs1, hs2⟩
      · exact Or.inr ⟨it, List.mem_cons_of_mem x hit, hi1, hi2⟩

/-- C8: the search accepts only the candidate maximizing the similarity
between the query title and the candidate's (subtitle-extended) title,
returns its DOI only when that maximum strictly exceeds 0.7, and returns
none whenever every candidate's similarity is at most 0.7 — in particular
for the empty candidate list. -/
theorem C8_find_doi_selects_max (title : String) (items : List Item) :
    ((∀ it ∈ items, simTo title it ≤ 7/10) →
      find_doi_by_title_author title items = none) ∧
    (find_doi_by_title_author title items = none ∨
      ∃ it ∈ items, find_doi_by_title_author title items = it.doi ∧
        (7 : ℚ)/10 < simTo title it ∧
        ∀ it2 ∈ items, simTo title it2 ≤ simTo title it) := by
  obtain ⟨h1, h2, h3⟩ :=
    selFold_spec title items ((none : Option Item), (0 : ℚ))
  rcases hpair : items.foldl (selStep title)
      ((none : Option Item), (0 : ℚ)) with ⟨f, s⟩
  rw [hpair] at h2 h3
  have hu : find_doi_by_title_author title items = bestDoi (f, s) := by
    unfold find_doi_by_title_author
    rw [hpair]
  cases f with
  | none =>
    rw [hu]
    exact ⟨fun _ => rfl, Or.inl rfl⟩
  | some bm =>
    have hbm : bm ∈ items ∧ s = simTo title bm := by
      rcases h3 with h | ⟨it, hit, hi1, hi2⟩
      · simp at h
      · simp only [Option.some.injEq] at hi1
        rw [hi1]
        exact ⟨hit, hi2⟩
    obtain ⟨hmem, hs2⟩ := hbm
    constructor
    · intro hall
      rw [hu]
      have hle : ¬ (7 : ℚ)/10 < s := by
        rw [hs2] at *
        exact not_lt.mpr (hall bm hmem)
      show (if (7 : ℚ)/10 < s then bm.doi else none) = none
      rw [if_neg hle]
    · by_cases hgt : (7 : ℚ)/10 < s
      · right
        refine ⟨bm, hmem, ?_, ?_, ?_⟩
        · rw [hu]
          show (if (7 : ℚ)/10 < s then bm.doi else none) = bm.doi
          rw [if_pos hgt]
        · rw [← hs2]
          exact hgt
        · intro it2 hit2
          rw [← hs2]
          exact h2 it2 hit2
      · left
        rw [hu]
        show (if (7 : ℚ)/10 < s then bm.doi else none) = none
        rw [if_neg hgt]

/-- C8 witness: the empty candidate list yields no DOI. -/
theorem C8_find_doi_selects_max_witness :
    find_doi_by_title_author "t" [] = none :=
  (C8_find_doi_selects_max "t" []).1 (by simp)
